import Mathlib

/-!
Verification development for the tianshu bridge hub core.

The Python modules `src/core/approval_reply.py`, `src/core/delivery_log.py`,
`src/core/room_manager.py`, `src/diting_listener.py`,
`src/channel/telegram/render.py` and `src/channel_adapter/feishu_render.py`
are shallowly embedded below.  Python dicts (insertion ordered) are modelled
as association lists; `time.time()` is modelled as an explicit `now : Nat`
parameter supplied to each operation (the two `time.time()` calls inside one
operation are taken at the same instant).
-/

/-! ## Insertion-ordered dictionaries as association lists -/

/-- Python `d.get(k)` / `k in d`: the value of the first pair whose key is `k`. -/
def dictGet {α β : Type} [DecidableEq α] (k : α) : List (α × β) → Option β
  | [] => none
  | (k', v) :: rest => if k' = k then some v else dictGet k rest

/-- Python `d[k] = v`: overwrite in place if the key exists, else append. -/
def dictInsert {α β : Type} [DecidableEq α] (k : α) (v : β) : List (α × β) → List (α × β)
  | [] => [(k, v)]
  | (k', v') :: rest => if k' = k then (k, v) :: rest else (k', v') :: dictInsert k v rest

/-- Python `d.pop(k, default)` key removal (removes every pair with key `k`;
identical to Python on the duplicate-free lists `dictInsert` produces). -/
def dictErase {α β : Type} [DecidableEq α] (k : α) : List (α × β) → List (α × β)
  | [] => []
  | (k', v) :: rest => if k' = k then dictErase k rest else (k', v) :: dictErase k rest

/-- Python `s.rstrip("/")`: drop trailing slash characters. -/
def rstripSlash (s : String) : String :=
  String.mk ((s.data.reverse.dropWhile (· = '/')).reverse)

/-! ## `src/core/approval_reply.py` -/

namespace ApprovalReply

/-- `_TTL_SEC = 3600`. -/
def TTL_SEC : Nat := 3600

/-- The module-level mutable state: `_store` maps `(room_id, event_id)` to
`(request_id, gateway_base_url, created_at)`; `_pending_queue` maps a room id
to its ordered pending list. -/
structure ApprovalState where
  store : List ((String × String) × (String × String × Nat))
  pendingQueue : List (String × List (String × String × Nat))
  deriving DecidableEq, Repr

/-- Initial module state: both dicts empty. -/
def emptyState : ApprovalState := ⟨[], []⟩

/-- The room's queue, `_pending_queue.get(room_id, [])`. -/
def queueList (room : String) (s : ApprovalState) : List (String × String × Nat) :=
  (dictGet room s.pendingQueue).getD []

/-- `record_approval_message_debug(room_id, event_id, request_id, gateway_base_url)`. -/
def record_approval_message_debug (room_id event_id request_id gateway_base_url : String)
    (now : Nat) (s : ApprovalState) : ApprovalState :=
  if room_id ≠ "" ∧ event_id ≠ "" ∧ request_id ≠ "" then
    { store := dictInsert (room_id, event_id)
        (request_id, rstripSlash gateway_base_url, now) s.store,
      pendingQueue := dictInsert room_id
        (queueList room_id s ++ [(request_id, rstripSlash gateway_base_url, now)])
        s.pendingQueue }
  else s

/-- `lookup_by_reply_to(room_id, in_reply_to_event_id)`: returns the result and
the (possibly mutated — expired entries are deleted) state. -/
def lookup_by_reply_to (room_id in_reply_to_event_id : String) (now : Nat)
    (s : ApprovalState) : Option (String × String) × ApprovalState :=
  match dictGet (room_id, in_reply_to_event_id) s.store with
  | none => (none, s)
  | some (request_id, gateway_base_url, created) =>
    if now - created > TTL_SEC then
      (none, { s with store := dictErase (room_id, in_reply_to_event_id) s.store })
    else
      (some (request_id, gateway_base_url), s)

/-- `get_last_pending(room_id)`: newest-first scan for the first non-expired entry. -/
def get_last_pending (room_id : String) (now : Nat) (s : ApprovalState) :
    Option (String × String) :=
  (queueList room_id s).reverse.findSome?
    (fun e => if now - e.2.2 ≤ TTL_SEC then some (e.1, e.2.1) else none)

/-- `get_all_pending(room_id)`: all non-expired entries, oldest first. -/
def get_all_pending (room_id : String) (now : Nat) (s : ApprovalState) :
    List (String × String) :=
  (queueList room_id s).filterMap
    (fun e => if now - e.2.2 ≤ TTL_SEC then some (e.1, e.2.1) else none)

/-- `consume_approval_reply(room_id, event_id)`: `_store.pop(key, None)`. -/
def consume_approval_reply (room_id event_id : String) (s : ApprovalState) :
    ApprovalState :=
  { s with store := dictErase (room_id, event_id) s.store }

/-- `remove_from_pending(room_id, cheq_id)`: filter the room's queue by request id
(the Python assignment creates the room key when absent). -/
def remove_from_pending (room_id cheq_id : String) (s : ApprovalState) : ApprovalState :=
  let kept := (queueList room_id s).filter (fun e => decide (e.1 ≠ cheq_id))
  { s with pendingQueue := dictInsert room_id kept s.pendingQueue }

/-- `get_last_pending_global()`: rooms in dict order, each scanned newest first. -/
def get_last_pending_global (now : Nat) (s : ApprovalState) : Option (String × String) :=
  s.pendingQueue.findSome?
    (fun rq => rq.2.reverse.findSome?
      (fun e => if now - e.2.2 ≤ TTL_SEC then some (e.1, e.2.1) else none))

/-- `get_all_pending_global()`: all non-expired entries across every room. -/
def get_all_pending_global (now : Nat) (s : ApprovalState) : List (String × String) :=
  s.pendingQueue.flatMap
    (fun rq => rq.2.filterMap
      (fun e => if now - e.2.2 ≤ TTL_SEC then some (e.1, e.2.1) else none))

end ApprovalReply

/-! ## `src/core/delivery_log.py` -/

namespace DeliveryLog

def STATUS_PENDING : String := "pending"
def STATUS_DELIVERED : String := "delivered"
def STATUS_FAILED : String := "failed"
def STATUS_REJECTED : String := "rejected"
def STATUS_NO_REPLY : String := "no_reply"

/-- `_max_entries = 5000`. -/
def MAX_ENTRIES : Nat := 5000

/-- One ledger row, the dict built by `record_delivery_start`. -/
structure DeliveryEntry where
  delivery_id : String
  semantic_type : String
  target : List (String × String)
  payload_summary : String
  status : String
  started_at : Nat
  updated_at : Nat
  feishu_message_id : Option String
  error_reason : Option String
  deriving DecidableEq, Repr

/-- Python's `a or b` on an optional string (`None` and `""` are falsy). -/
def pyOr (a : Option String) (b : String) : String :=
  match a with
  | some s => if s = "" then b else s
  | none => b

/-- `_trim()`: keep the most recent `_max_entries` rows when over the cap. -/
def trimLog (log : List DeliveryEntry) : List DeliveryEntry :=
  if log.length > MAX_ENTRIES then log.drop (log.length - MAX_ENTRIES) else log

/-- `record_delivery_start(semantic_type, target, payload_summary, delivery_id)`.
`fresh_uuid` models `str(uuid.uuid4())`, used when no truthy id was passed.
Returns the assigned id and the new `_log`. -/
def record_delivery_start (semantic_type : String) (target : List (String × String))
    (payload_summary : Option String) (delivery_id : Option String)
    (fresh_uuid : String) (now : Nat) (log : List DeliveryEntry) :
    String × List DeliveryEntry :=
  let did := pyOr delivery_id fresh_uuid
  let entry : DeliveryEntry :=
    { delivery_id := did, semantic_type := semantic_type, target := target,
      payload_summary := pyOr payload_summary "", status := STATUS_PENDING,
      started_at := now, updated_at := now, feishu_message_id := none,
      error_reason := none }
  (did, trimLog (log ++ [entry]))

/-- The in-place mutation done on the matched row by `record_delivery_done`. -/
def doneUpdate (e : DeliveryEntry) (status : String) (feishu_message_id : Option String)
    (error_reason : Option String) (now : Nat) : DeliveryEntry :=
  let fmid := match feishu_message_id with
    | some v => some v
    | none => e.feishu_message_id
  let err := match error_reason with
    | some v => some v
    | none => e.error_reason
  { e with status := status, updated_at := now, feishu_message_id := fmid, error_reason := err }

/-- `record_delivery_done(delivery_id, status, feishu_message_id, error_reason)`:
reverse scan (the recursion tries the tail — i.e. the more recent rows — first),
mutates the most recent matching row, returns whether a row matched. -/
def record_delivery_done (delivery_id status : String)
    (feishu_message_id error_reason : Option String) (now : Nat) :
    List DeliveryEntry → Bool × List DeliveryEntry
  | [] => (false, [])
  | e :: rest =>
    let r := record_delivery_done delivery_id status feishu_message_id error_reason now rest
    if r.1 then (true, e :: r.2)
    else if e.delivery_id = delivery_id then
      (true, doneUpdate e status feishu_message_id error_reason now :: rest)
    else (false, e :: rest)

/-- `get_delivery_status(delivery_id)`: most recent matching row or `None`. -/
def get_delivery_status (delivery_id : String) : List DeliveryEntry → Option DeliveryEntry
  | [] => none
  | e :: rest =>
    match get_delivery_status delivery_id rest with
    | some r => some r
    | none => if e.delivery_id = delivery_id then some e else none

end DeliveryLog

/-! ## `src/core/room_manager.py` -/

namespace RoomManager

/-- Module state: `_chat_to_room` and `_room_to_chats`. -/
structure RoomState where
  chatToRoom : List (String × String)
  roomToChats : List (String × List String)
  deriving DecidableEq, Repr

def emptyState : RoomState := ⟨[], []⟩

/-- Python `list(dict.fromkeys(xs))`: de-duplicate keeping first occurrences. -/
def dedupKeepFirst (seen : List String) : List String → List String
  | [] => []
  | x :: xs =>
    if x ∈ seen then dedupKeepFirst seen xs else x :: dedupKeepFirst (x :: seen) xs

/-- `get_matrix_room_id(feishu_chat_id)`; `usePrivateRoom`/`sharedRoomId` model the
`USE_PRIVATE_ROOM` / `SHARED_ROOM_ID` configuration (a missing or empty
`SHARED_ROOM_ID` is falsy). -/
def get_matrix_room_id (usePrivateRoom : Bool) (sharedRoomId : Option String)
    (feishu_chat_id : String) (s : RoomState) : Option String :=
  if usePrivateRoom then dictGet feishu_chat_id s.chatToRoom
  else
    match sharedRoomId with
    | some r => if r = "" then dictGet feishu_chat_id s.chatToRoom else some r
    | none => dictGet feishu_chat_id s.chatToRoom

/-- `set_room_mapping(feishu_chat_id, matrix_room_id)`: forward map overwrite,
reverse list append then de-duplicate preserving order. -/
def set_room_mapping (feishu_chat_id matrix_room_id : String) (s : RoomState) :
    RoomState :=
  let cur := (dictGet matrix_room_id s.roomToChats).getD []
  { chatToRoom := dictInsert feishu_chat_id matrix_room_id s.chatToRoom,
    roomToChats := dictInsert matrix_room_id
      (dedupKeepFirst [] (cur ++ [feishu_chat_id])) s.roomToChats }

/-- `get_feishu_chat_id(matrix_room_id)`: first bound chat id, if any. -/
def get_feishu_chat_id (matrix_room_id : String) (s : RoomState) : Option String :=
  match dictGet matrix_room_id s.roomToChats with
  | some (c :: _) => some c
  | _ => none

/-- `get_feishu_chat_ids(matrix_room_id)`: the full fan-out list. -/
def get_feishu_chat_ids (matrix_room_id : String) (s : RoomState) : List String :=
  (dictGet matrix_room_id s.roomToChats).getD []

/-- `forget_room(matrix_room_id)`: pop the reverse list and pop every forward
entry of the chats it held. -/
def forget_room (matrix_room_id : String) (s : RoomState) : RoomState :=
  let chats := (dictGet matrix_room_id s.roomToChats).getD []
  { chatToRoom := chats.foldl (fun m c => dictErase c m) s.chatToRoom,
    roomToChats := dictErase matrix_room_id s.roomToChats }

end RoomManager

/-! ## Python values (payload dicts) and `str()` / `repr()` -/

/-- A Python value as found in a renderer payload dict. -/
inductive PyVal where
  | vstr (s : String)
  | vint (n : Int)
  | vbool (b : Bool)
  | vnone
  | vlist (xs : List PyVal)
  | vdict (kvs : List (String × PyVal))
  deriving Repr

/-- `isinstance(v, (list, dict))`. -/
def PyVal.isCompound : PyVal → Bool
  | .vlist _ => true
  | .vdict _ => true
  | _ => false

mutual

/-- Python `repr(v)` (string escaping modelled for quote- and
backslash-free strings, which is all the repository ever renders). -/
def pyReprVal : PyVal → String
  | .vstr s => "\x27" ++ s ++ "\x27"
  | .vint n => toString n
  | .vbool b => if b then "True" else "False"
  | .vnone => "None"
  | .vlist xs => "[" ++ pyReprList xs ++ "]"
  | .vdict kvs => "\x7b" ++ pyReprKVs kvs ++ "\x7d"

/-- Comma-joined `repr` of list elements. -/
def pyReprList : List PyVal → String
  | [] => ""
  | [x] => pyReprVal x
  | x :: y :: xs => pyReprVal x ++ ", " ++ pyReprList (y :: xs)

/-- Comma-joined `repr` of dict items. -/
def pyReprKVs : List (String × PyVal) → String
  | [] => ""
  | [(k, v)] => "\x27" ++ k ++ "\x27: " ++ pyReprVal v
  | (k, v) :: p :: kvs => "\x27" ++ k ++ "\x27: " ++ pyReprVal v ++ ", " ++ pyReprKVs (p :: kvs)

end

/-- Python `str(v)` as used in an f-string: identity on strings, `repr` otherwise. -/
def pyStr : PyVal → String
  | .vstr s => s
  | v => pyReprVal v

/-! ## `src/channel/telegram/render.py` -/

namespace TelegramRender

/-- The flat `{"text", "buttons"}` record the Telegram renderer returns. -/
structure TgMessage where
  text : String
  buttons : List (List (String × String))
  deriving Repr

/-- `SEMANTIC_DISPLAY_KEYS`. -/
def SEMANTIC_DISPLAY_KEYS : List (String × List String) :=
  [("approval_request", ["title", "description"]),
   ("approval_result", ["request_id", "approved", "comment"]),
   ("dashboard_summary", ["participant_count", "agent_count", "deliver_rate"]),
   ("agent_list", ["items", "total"]),
   ("alert_notification", ["level", "title", "body"]),
   ("registration_confirm", ["pairing_code", "agent_display_name", "expire_at"]),
   ("agent_status", ["status", "agent_id", "message"]),
   ("text", ["text"])]

/-- `semantic_to_telegram_message(semantic_type, payload)`.  `renderers` models
the mutable `_card_renderers` registry (populated by
`register_telegram_renderer`); the claims below only constrain semantic types
with no registered renderer, where the generic text fallback runs. -/
def semantic_to_telegram_message
    (renderers : List (String × (List (String × PyVal) → TgMessage)))
    (semantic_type : String) (payload : List (String × PyVal)) : TgMessage :=
  match dictGet semantic_type renderers with
  | some r => r payload
  | none =>
    let keys := (dictGet semantic_type SEMANTIC_DISPLAY_KEYS).getD ["text", "title", "body"]
    let parts := keys.filterMap (fun k =>
      match dictGet k payload with
      | none => none
      | some PyVal.vnone => none
      | some v =>
        if v.isCompound then some (k ++ ": (见详情)") else some (k ++ ": " ++ pyStr v))
    let text :=
      if parts.isEmpty then (pyReprVal (PyVal.vdict payload)).take 500
      else String.intercalate "\n" parts
    { text := text, buttons := [] }

end TelegramRender

/-! ## `src/channel_adapter/feishu_render.py` -/

namespace FeishuRender

/-- The `{"msg_type", "content"}` record the Feishu renderer returns. -/
structure FsMessage where
  msg_type : String
  content : PyVal
  deriving Repr

/-- `SEMANTIC_DISPLAY_KEYS` (the Feishu module's own copy of the table). -/
def SEMANTIC_DISPLAY_KEYS : List (String × List String) :=
  [("approval_request", ["title", "description"]),
   ("approval_result", ["request_id", "approved", "comment"]),
   ("dashboard_summary", ["participant_count", "agent_count", "deliver_rate"]),
   ("agent_list", ["items", "total"]),
   ("alert_notification", ["level", "title", "body"]),
   ("registration_confirm", ["pairing_code", "agent_display_name", "expire_at"]),
   ("agent_status", ["status", "agent_id", "message"]),
   ("text", ["text"])]

/-- `semantic_to_feishu_message(semantic_type, payload)`; `renderers` models the
mutable `_card_renderers` registry (populated by `register_card_renderer`). -/
def semantic_to_feishu_message
    (renderers : List (String × (List (String × PyVal) → FsMessage)))
    (semantic_type : String) (payload : List (String × PyVal)) : FsMessage :=
  match dictGet semantic_type renderers with
  | some r => r payload
  | none =>
    let keys := (dictGet semantic_type SEMANTIC_DISPLAY_KEYS).getD ["text", "title", "body"]
    let parts := keys.filterMap (fun k =>
      match dictGet k payload with
      | none => none
      | some PyVal.vnone => none
      | some v =>
        if v.isCompound then some (k ++ ": (见详情)") else some (k ++ ": " ++ pyStr v))
    let text :=
      if parts.isEmpty then (pyReprVal (PyVal.vdict payload)).take 500
      else String.intercalate "\n" parts
    { msg_type := "text", content := PyVal.vdict [("text", PyVal.vstr text)] }

end FeishuRender

/-! ## `src/diting_listener.py` -/

namespace DitingListener

/-- The target-resolution portion of `DitingApprovalListener._process_approval`:
the computation of `cheq_ids` (the subsequent HTTP approval calls are I/O and
out of scope).  Branch order as in the source: bulk approve-all first, else an
explicit reply-to reference resolved via `lookup_by_reply_to` (with no further
fallback), else the room's last pending request. -/
def resolve_approval_targets (room_id in_reply_to : String) (is_approve_all : Bool)
    (now : Nat) (s : ApprovalReply.ApprovalState) : List String :=
  if is_approve_all then
    (ApprovalReply.get_all_pending_global now s).map (fun p => p.1)
  else if in_reply_to ≠ "" then
    match (ApprovalReply.lookup_by_reply_to room_id in_reply_to now s).1 with
    | some (cheq_id, _) => [cheq_id]
    | none => []
  else
    match ApprovalReply.get_last_pending room_id now s with
    | some (cheq_id, _) => [cheq_id]
    | none => []

end DitingListener

/-! ## Operation sequences over the Approval Correlation Store (for claim C1) -/

namespace ApprovalReply

/-- One mutation-path operation of the correlation store considered by the
amended two-index-consistency claim. -/
inductive AOp where
  | record (room event req gw : String) (now : Nat)
  | lookup (room event : String) (now : Nat)

/-- The wall-clock instant at which an operation runs. -/
def AOp.time : AOp → Nat
  | .record _ _ _ _ n => n
  | .lookup _ _ n => n

/-- Run one operation (for `lookup_by_reply_to` keep the mutated state). -/
def applyAOp : AOp → ApprovalState → ApprovalState
  | .record room event req gw n, s => record_approval_message_debug room event req gw n s
  | .lookup room event n, s => (lookup_by_reply_to room event n s).2

/-- Run a sequence of operations, oldest first. -/
def applyAOps : List AOp → ApprovalState → ApprovalState
  | [], s => s
  | op :: ops, s => applyAOps ops (applyAOp op s)

/-- The time after running the sequence (last operation's instant). -/
def endTime (n : Nat) : List AOp → Nat
  | [] => n
  | op :: ops => endTime op.time ops

/-- A well-formed run: the clock never goes backwards and every recorded
`(room_id, event_id)` key is fresh (Matrix event ids are unique). -/
inductive GoodSeq : Nat → ApprovalState → List AOp → Prop
  | nil (n : Nat) (s : ApprovalState) : GoodSeq n s []
  | record (n : Nat) (s : ApprovalState) (room event req gw : String) (now : Nat)
      (ops : List AOp) (hle : n ≤ now)
      (hfresh : dictGet (room, event) s.store = none)
      (h : GoodSeq now (applyAOp (.record room event req gw now) s) ops) :
      GoodSeq n s (.record room event req gw now :: ops)
  | lookup (n : Nat) (s : ApprovalState) (room event : String) (now : Nat)
      (ops : List AOp) (hle : n ≤ now)
      (h : GoodSeq now (applyAOp (.lookup room event now) s) ops) :
      GoodSeq n s (.lookup room event now :: ops)

/-- The claim's two-index consistency at instant `now`: every non-expired map
entry has a queue entry with the same `(request_id, gateway_base_url)` in its
room's queue, and every non-expired queue entry has such a map entry. -/
def ConsistentAt (now : Nat) (s : ApprovalState) : Prop :=
  (∀ kv ∈ s.store, now - kv.2.2.2 ≤ TTL_SEC →
    ∃ e ∈ queueList kv.1.1 s, e.1 = kv.2.1 ∧ e.2.1 = kv.2.2.1)
  ∧ (∀ rq ∈ s.pendingQueue, ∀ e ∈ rq.2, now - e.2.2 ≤ TTL_SEC →
    ∃ kv ∈ s.store, kv.1.1 = rq.1 ∧ kv.2.1 = e.1 ∧ kv.2.2.1 = e.2.1)

/-- Strengthened induction invariant: every map entry appears verbatim in its
room's queue, and every non-expired queue entry appears verbatim in the map. -/
def InvAt (now : Nat) (s : ApprovalState) : Prop :=
  (∀ kv ∈ s.store, kv.2 ∈ queueList kv.1.1 s)
  ∧ (∀ rq ∈ s.pendingQueue, ∀ e ∈ rq.2, now - e.2.2 ≤ TTL_SEC →
    ∃ kv ∈ s.store, kv.1.1 = rq.1 ∧ kv.2 = e)

/-- Induction package: the invariant plus key-uniqueness of the map. -/
def GoodState (now : Nat) (s : ApprovalState) : Prop :=
  InvAt now s ∧ (s.store.map Prod.fst).Nodup

end ApprovalReply

/-! ## Iterated delivery starts (for claim C4) -/

namespace DeliveryLog

/-- The arguments of one `record_delivery_start` call whose `delivery_id` is
generated (`delivery_id=None`, so `uuid` is the id actually assigned). -/
structure StartReq where
  semantic_type : String
  target : List (String × String)
  payload_summary : Option String
  uuid : String
  now : Nat
  deriving Repr

/-- The ledger row such a call appends. -/
def mkEntry (r : StartReq) : DeliveryEntry :=
  { delivery_id := r.uuid, semantic_type := r.semantic_type, target := r.target,
    payload_summary := pyOr r.payload_summary "", status := STATUS_PENDING,
    started_at := r.now, updated_at := r.now, feishu_message_id := none,
    error_reason := none }

/-- Run the calls oldest first. -/
def startAll (reqs : List StartReq) (log : List DeliveryEntry) : List DeliveryEntry :=
  match reqs with
  | [] => log
  | r :: rs =>
    startAll rs (record_delivery_start r.semantic_type r.target r.payload_summary
      none r.uuid r.now log).2

end DeliveryLog

/-! ## Dictionary lemmas -/

theorem dictGet_dictInsert {α β : Type} [DecidableEq α] (k k' : α) (v : β)
    (l : List (α × β)) :
    dictGet k' (dictInsert k v l) = if k = k' then some v else dictGet k' l := by
  induction l with
  | nil => simp [dictGet, dictInsert]
  | cons p rest ih =>
    obtain ⟨pk, pv⟩ := p
    by_cases hpk : pk = k
    · subst hpk
      by_cases hk : pk = k'
      · subst hk; simp [dictGet, dictInsert]
      · simp [dictGet, dictInsert, hk]
    · by_cases hk : pk = k'
      · subst hk
        have hkk : ¬k = pk := fun h => hpk h.symm
        simp [dictGet, dictInsert, hpk, hkk]
      · simp [dictGet, dictInsert, hpk, hk, ih]

theorem dictInsert_of_fresh {α β : Type} [DecidableEq α] (k : α) (v : β)
    (l : List (α × β)) (h : dictGet k l = none) :
    dictInsert k v l = l ++ [(k, v)] := by
  induction l with
  | nil => simp [dictInsert]
  | cons p rest ih =>
    obtain ⟨pk, pv⟩ := p
    by_cases hpk : pk = k
    · subst hpk; simp [dictGet] at h
    · simp [dictGet, hpk] at h
      simp [dictInsert, hpk, ih h]

theorem dictErase_eq_filter {α β : Type} [DecidableEq α] (k : α) (l : List (α × β)) :
    dictErase k l = l.filter (fun p => decide (p.1 ≠ k)) := by
  induction l with
  | nil => rfl
  | cons q rest ih =>
    obtain ⟨qk, qv⟩ := q
    by_cases hq : qk = k <;> simp [dictErase, hq, ih, List.filter_cons]

theorem mem_dictErase {α β : Type} [DecidableEq α] (k : α) (l : List (α × β))
    (p : α × β) : p ∈ dictErase k l ↔ p ∈ l ∧ p.1 ≠ k := by
  rw [dictErase_eq_filter]
  simp [List.mem_filter]

theorem dictGet_eq_none_iff {α β : Type} [DecidableEq α] (k : α) (l : List (α × β)) :
    dictGet k l = none ↔ ∀ p ∈ l, p.1 ≠ k := by
  induction l with
  | nil => simp [dictGet]
  | cons q rest ih =>
    obtain ⟨qk, qv⟩ := q
    by_cases hq : qk = k
    · subst hq; simp [dictGet]
    · simp [dictGet, hq, ih]

theorem mem_dictInsert {α β : Type} [DecidableEq α] (k : α) (v : β)
    (l : List (α × β)) (p : α × β) (h : p ∈ dictInsert k v l) :
    p = (k, v) ∨ p ∈ l := by
  induction l with
  | nil => simpa [dictInsert] using h
  | cons q rest ih =>
    obtain ⟨qk, qv⟩ := q
    by_cases hq : qk = k
    · simp only [dictInsert, if_pos hq, List.mem_cons] at h
      rcases h with h | h
      · exact Or.inl h
      · exact Or.inr (List.mem_cons_of_mem _ h)
    · simp only [dictInsert, if_neg hq, List.mem_cons] at h
      rcases h with h | h
      · exact Or.inr (by simp [h])
      · rcases ih h with h' | h'
        · exact Or.inl h'
        · exact Or.inr (List.mem_cons_of_mem _ h')

theorem mem_of_dictGet {α β : Type} [DecidableEq α] (k : α) (b : β)
    (l : List (α × β)) (h : dictGet k l = some b) : (k, b) ∈ l := by
  induction l with
  | nil => simp [dictGet] at h
  | cons q rest ih =>
    obtain ⟨qk, qv⟩ := q
    by_cases hq : qk = k
    · subst hq
      simp [dictGet] at h
      simp [h]
    · simp only [dictGet, if_neg hq] at h
      exact List.mem_cons_of_mem _ (ih h)

theorem dictGet_of_mem_nodup {α β : Type} [DecidableEq α] (k : α) (b : β)
    (l : List (α × β)) (hmem : (k, b) ∈ l) (hnd : (l.map Prod.fst).Nodup) :
    dictGet k l = some b := by
  induction l with
  | nil => simp at hmem
  | cons q rest ih =>
    obtain ⟨qk, qv⟩ := q
    simp only [List.map_cons, List.nodup_cons] at hnd
    rcases List.mem_cons.mp hmem with h | h
    · injection h.symm with h1 h2
      subst h1; subst h2
      simp [dictGet]
    · have hk : qk ≠ k := by
        intro hqk
        subst hqk
        exact hnd.1 (List.mem_map_of_mem Prod.fst h)
      simp only [dictGet, if_neg hk]
      exact ih h hnd.2

/-! ## Claim theorems -/

/-- Claim C8: after `record_approval_message_debug("!room1", "$evt1", "req-abc",
"http://gw")`, a `lookup_by_reply_to("!room1", "$evt1")` within the TTL returns
`("req-abc", "http://gw")`; after `consume_approval_reply("!room1", "$evt1")`,
the same lookup returns `None`. -/
theorem claim_C8_happy_path_round_trip (t now : Nat)
    (hin : now - t ≤ ApprovalReply.TTL_SEC) :
    (ApprovalReply.lookup_by_reply_to "!room1" "$evt1" now
      (ApprovalReply.record_approval_message_debug "!room1" "$evt1" "req-abc" "http://gw" t
        ApprovalReply.emptyState)).1 = some ("req-abc", "http://gw")
    ∧ (ApprovalReply.lookup_by_reply_to "!room1" "$evt1" now
        (ApprovalReply.consume_approval_reply "!room1" "$evt1"
          (ApprovalReply.record_approval_message_debug "!room1" "$evt1" "req-abc" "http://gw" t
            ApprovalReply.emptyState))).1 = none := by
  have hg : rstripSlash "http://gw" = "http://gw" := by decide
  have hrec : ApprovalReply.record_approval_message_debug "!room1" "$evt1" "req-abc" "http://gw" t
      ApprovalReply.emptyState =
      ⟨[(("!room1", "$evt1"), ("req-abc", "http://gw", t))],
        [("!room1", [("req-abc", "http://gw", t)])]⟩ := by
    simp +decide [ApprovalReply.record_approval_message_debug, ApprovalReply.emptyState,
      ApprovalReply.queueList, dictInsert, dictGet, hg]
  have hexp : ¬ (now - t > ApprovalReply.TTL_SEC) := Nat.not_lt.mpr hin
  rw [hrec]
  constructor
  · simp +decide [ApprovalReply.lookup_by_reply_to, dictGet, hexp]
  · simp +decide [ApprovalReply.consume_approval_reply, ApprovalReply.lookup_by_reply_to,
      dictErase, dictGet]

/-- Witness for C8 at `t = 0`, `now = 0`. -/
theorem claim_C8_witness :
    0 - 0 ≤ ApprovalReply.TTL_SEC
    ∧ ((ApprovalReply.lookup_by_reply_to "!room1" "$evt1" 0
        (ApprovalReply.record_approval_message_debug "!room1" "$evt1" "req-abc" "http://gw" 0
          ApprovalReply.emptyState)).1 = some ("req-abc", "http://gw")
      ∧ (ApprovalReply.lookup_by_reply_to "!room1" "$evt1" 0
          (ApprovalReply.consume_approval_reply "!room1" "$evt1"
            (ApprovalReply.record_approval_message_debug "!room1" "$evt1" "req-abc" "http://gw" 0
              ApprovalReply.emptyState))).1 = none) :=
  ⟨by decide, claim_C8_happy_path_round_trip 0 0 (by decide)⟩

/-- Claim C6: binding external chat ids A, then B, then A again to an internal
room (not previously bound) yields the fan-out list `[A, B]`: duplicates
removed, first-seen order preserved. -/
theorem claim_C6_binding_idempotent_order (s : RoomManager.RoomState)
    (room A B : String) (hroom : dictGet room s.roomToChats = none) (hAB : A ≠ B) :
    RoomManager.get_feishu_chat_ids room
      (RoomManager.set_room_mapping A room
        (RoomManager.set_room_mapping B room
          (RoomManager.set_room_mapping A room s))) = [A, B] := by
  have hBA : B ≠ A := Ne.symm hAB
  simp [RoomManager.set_room_mapping, RoomManager.get_feishu_chat_ids,
    RoomManager.dedupKeepFirst, dictGet_dictInsert, hroom, hAB, hBA]

/-- Witness for C6 from the empty registry. -/
theorem claim_C6_witness :
    dictGet "room" RoomManager.emptyState.roomToChats = none
    ∧ "A" ≠ "B"
    ∧ RoomManager.get_feishu_chat_ids "room"
        (RoomManager.set_room_mapping "A" "room"
          (RoomManager.set_room_mapping "B" "room"
            (RoomManager.set_room_mapping "A" "room" RoomManager.emptyState))) = ["A", "B"] :=
  ⟨rfl, by decide, claim_C6_binding_idempotent_order RoomManager.emptyState "room" "A" "B" rfl
    (by decide)⟩

/-- Claim C10: rebinding an external chat `c` from room `r1` to room `r2` leaves
`c` in `r1`'s fan-out list while `get_matrix_room_id` (private-room mode)
returns `r2`; a subsequent `forget_room(r1)` also removes `c`'s forward mapping,
so `get_matrix_room_id(c)` returns `None` although `c` was last bound to the
still-existing room `r2` (whose fan-out list still holds `c`). -/
theorem claim_C10_rebinding_stale_fanout (c r1 r2 : String) (h12 : r1 ≠ r2) :
    RoomManager.get_matrix_room_id true none c
      (RoomManager.set_room_mapping c r2
        (RoomManager.set_room_mapping c r1 RoomManager.emptyState)) = some r2
    ∧ c ∈ RoomManager.get_feishu_chat_ids r1
        (RoomManager.set_room_mapping c r2
          (RoomManager.set_room_mapping c r1 RoomManager.emptyState))
    ∧ RoomManager.get_matrix_room_id true none c
        (RoomManager.forget_room r1
          (RoomManager.set_room_mapping c r2
            (RoomManager.set_room_mapping c r1 RoomManager.emptyState))) = none
    ∧ RoomManager.get_feishu_chat_ids r2
        (RoomManager.forget_room r1
          (RoomManager.set_room_mapping c r2
            (RoomManager.set_room_mapping c r1 RoomManager.emptyState))) = [c] := by
  have h21 : r2 ≠ r1 := Ne.symm h12
  refine ⟨?_, ?_, ?_, ?_⟩ <;>
    simp [RoomManager.set_room_mapping, RoomManager.get_feishu_chat_ids,
      RoomManager.get_matrix_room_id, RoomManager.forget_room, RoomManager.emptyState,
      RoomManager.dedupKeepFirst, dictGet, dictInsert, dictErase, h12, h21]

/-- Witness for C10 at concrete ids. -/
theorem claim_C10_witness :
    "r1" ≠ "r2"
    ∧ RoomManager.get_matrix_room_id true none "c"
        (RoomManager.forget_room "r1"
          (RoomManager.set_room_mapping "c" "r2"
            (RoomManager.set_room_mapping "c" "r1" RoomManager.emptyState))) = none :=
  ⟨by decide, (claim_C10_rebinding_stale_fanout "c" "r1" "r2" (by decide)).2.2.1⟩

/-- Claim C7: for both platform renderers, an unregistered semantic type whose
type is also unknown to the display-key table renders payload
`{"text": "hello"}` as a text containing `"text: hello"` (default display keys
`["text", "title", "body"]`), and renders payload `{}` (no matching keys) as
the stringified payload (`"{}"` here) truncated to 500 characters. -/
theorem claim_C7_renderer_fallback
    (tgR : List (String × (List (String × PyVal) → TelegramRender.TgMessage)))
    (fsR : List (String × (List (String × PyVal) → FeishuRender.FsMessage)))
    (st : String)
    (htg : dictGet st tgR = none) (hfs : dictGet st fsR = none)
    (htk : dictGet st TelegramRender.SEMANTIC_DISPLAY_KEYS = none)
    (hfk : dictGet st FeishuRender.SEMANTIC_DISPLAY_KEYS = none) :
    (TelegramRender.semantic_to_telegram_message tgR st [("text", PyVal.vstr "hello")]).text
      = "text: hello"
    ∧ (FeishuRender.semantic_to_feishu_message fsR st [("text", PyVal.vstr "hello")]).content
      = PyVal.vdict [("text", PyVal.vstr "text: hello")]
    ∧ (TelegramRender.semantic_to_telegram_message tgR st []).text
      = (pyReprVal (PyVal.vdict [])).take 500
    ∧ pyReprVal (PyVal.vdict []) = "\x7b\x7d"
    ∧ (FeishuRender.semantic_to_feishu_message fsR st []).content
      = PyVal.vdict [("text", PyVal.vstr ((pyReprVal (PyVal.vdict [])).take 500))] := by
  refine ⟨?_, ?_, ?_, ?_, ?_⟩
  · simp only [TelegramRender.semantic_to_telegram_message, htg, htk]
    rfl
  · simp only [FeishuRender.semantic_to_feishu_message, hfs, hfk]
    rfl
  · simp only [TelegramRender.semantic_to_telegram_message, htg, htk, String.take_eq]
    rfl
  · rfl
  · simp only [FeishuRender.semantic_to_feishu_message, hfs, hfk, String.take_eq]
    rfl

/-- Witness for C7: empty registries and the unknown type `"mystery"`. -/
theorem claim_C7_witness :
    dictGet "mystery" TelegramRender.SEMANTIC_DISPLAY_KEYS = none
    ∧ (TelegramRender.semantic_to_telegram_message [] "mystery"
        [("text", PyVal.vstr "hello")]).text = "text: hello"
    ∧ (FeishuRender.semantic_to_feishu_message [] "mystery" []).content
      = PyVal.vdict [("text", PyVal.vstr ((pyReprVal (PyVal.vdict [])).take 500))] :=
  ⟨by decide,
    (claim_C7_renderer_fallback [] [] "mystery" rfl rfl (by decide) (by decide)).1,
    (claim_C7_renderer_fallback [] [] "mystery" rfl rfl (by decide) (by decide)).2.2.2.2⟩

/-- Claim C5: a non-bulk approve/reject reply that carries an explicit reply-to
event id is resolved only via `lookup_by_reply_to` on that event id — if the
reference resolves to request `r2` while the room's last pending request is a
different `r3`, the resolved target is `[r2]`, never `[r3]`, and a lookup miss
resolves to nothing (no fallback); `get_last_pending` is consulted exactly when
the message carries no reply-to reference. -/
theorem claim_C5_resolution_precedence (room e r2 gw r3 gw3 : String) (now : Nat)
    (s : ApprovalReply.ApprovalState) (he : e ≠ "") :
    ((ApprovalReply.lookup_by_reply_to room e now s).1 = some (r2, gw) →
      DitingListener.resolve_approval_targets room e false now s = [r2])
    ∧ ((ApprovalReply.lookup_by_reply_to room e now s).1 = none →
      DitingListener.resolve_approval_targets room e false now s = [])
    ∧ ((ApprovalReply.lookup_by_reply_to room e now s).1 = some (r2, gw) →
      ApprovalReply.get_last_pending room now s = some (r3, gw3) → r2 ≠ r3 →
      DitingListener.resolve_approval_targets room e false now s ≠ [r3])
    ∧ (DitingListener.resolve_approval_targets room "" false now s =
      match ApprovalReply.get_last_pending room now s with
      | some p => [p.1]
      | none => []) := by
  refine ⟨?_, ?_, ?_, ?_⟩
  · intro h
    simp [DitingListener.resolve_approval_targets, he, h]
  · intro h
    simp [DitingListener.resolve_approval_targets, he, h]
  · intro h hl hne
    simp [DitingListener.resolve_approval_targets, he, h, hne]
  · cases hl : ApprovalReply.get_last_pending room now s with
    | none => simp [DitingListener.resolve_approval_targets, hl]
    | some p =>
      obtain ⟨a, b⟩ := p
      simp [DitingListener.resolve_approval_targets, hl]

/-- Witness for C5: a room with `$e2 -> R2` recorded before `$e3 -> R3`, read at
an instant where `R3` is the last pending request. -/
theorem claim_C5_witness :
    ("$e2" : String) ≠ ""
    ∧ DitingListener.resolve_approval_targets "!r" "$e2" false 1
        (ApprovalReply.record_approval_message_debug "!r" "$e3" "R3" "http://g" 1
          (ApprovalReply.record_approval_message_debug "!r" "$e2" "R2" "http://g" 0
            ApprovalReply.emptyState)) = ["R2"]
    ∧ DitingListener.resolve_approval_targets "!r" "" false 1
        (ApprovalReply.record_approval_message_debug "!r" "$e3" "R3" "http://g" 1
          (ApprovalReply.record_approval_message_debug "!r" "$e2" "R2" "http://g" 0
            ApprovalReply.emptyState)) = ["R3"] :=
  ⟨by decide,
    (claim_C5_resolution_precedence "!r" "$e2" "R2" "http://g" "R3" "http://g" 1
      (ApprovalReply.record_approval_message_debug "!r" "$e3" "R3" "http://g" 1
        (ApprovalReply.record_approval_message_debug "!r" "$e2" "R2" "http://g" 0
          ApprovalReply.emptyState)) (by decide)).1 (by decide),
    ((claim_C5_resolution_precedence "!r" "$e2" "R2" "http://g" "R3" "http://g" 1
      (ApprovalReply.record_approval_message_debug "!r" "$e3" "R3" "http://g" 1
        (ApprovalReply.record_approval_message_debug "!r" "$e2" "R2" "http://g" 0
          ApprovalReply.emptyState)) (by decide)).2.2.2).trans (by decide)⟩

/-! ## Delivery ledger lemmas -/

namespace DeliveryLog

theorem record_delivery_done_miss (did st : String) (f er : Option String) (now : Nat)
    (log : List DeliveryEntry) (h : ∀ x ∈ log, x.delivery_id ≠ did) :
    record_delivery_done did st f er now log = (false, log) := by
  induction log with
  | nil => rfl
  | cons a rest ih =>
    have ha : a.delivery_id ≠ did := h a (by simp)
    have hrest := ih (fun x hx => h x (by simp [hx]))
    simp [record_delivery_done, hrest, ha]

theorem record_delivery_done_hit (did st : String) (f er : Option String) (now : Nat)
    (l1 l2 : List DeliveryEntry) (e : DeliveryEntry)
    (he : e.delivery_id = did) (h2 : ∀ x ∈ l2, x.delivery_id ≠ did) :
    record_delivery_done did st f er now (l1 ++ e :: l2) =
      (true, l1 ++ doneUpdate e st f er now :: l2) := by
  induction l1 with
  | nil =>
    simp [record_delivery_done, record_delivery_done_miss did st f er now l2 h2, he]
  | cons a l1' ih =>
    simp [record_delivery_done, ih]

theorem record_delivery_done_fst (did st : String) (f er : Option String) (now : Nat)
    (log : List DeliveryEntry) :
    (record_delivery_done did st f er now log).1 = true ↔
      ∃ x ∈ log, x.delivery_id = did := by
  induction log with
  | nil => simp [record_delivery_done]
  | cons a rest ih =>
    simp only [record_delivery_done]
    by_cases hr : (record_delivery_done did st f er now rest).1 = true
    · constructor
      · intro _
        obtain ⟨x, hx, hid⟩ := ih.mp hr
        exact ⟨x, List.mem_cons_of_mem _ hx, hid⟩
      · intro _
        simp [hr]
    · by_cases ha : a.delivery_id = did
      · constructor
        · intro _
          exact ⟨a, List.mem_cons_self _ _, ha⟩
        · intro _
          simp [hr, ha]
      · constructor
        · intro h
          simp [hr, ha] at h
        · rintro ⟨x, hx, hid⟩
          rcases List.mem_cons.mp hx with h1 | h1
          · exact absurd (h1 ▸ hid) ha
          · exact absurd (ih.mpr ⟨x, h1, hid⟩) hr

theorem get_delivery_status_none_iff (did : String) (log : List DeliveryEntry) :
    get_delivery_status did log = none ↔ ∀ x ∈ log, x.delivery_id ≠ did := by
  induction log with
  | nil => simp [get_delivery_status]
  | cons a rest ih =>
    simp only [get_delivery_status]
    cases hr : get_delivery_status did rest with
    | some r =>
      have hne : ¬ ∀ x ∈ rest, x.delivery_id ≠ did := fun hall =>
        Option.noConfusion ((ih.mpr hall).symm.trans hr)
      constructor
      · intro h
        exact Option.noConfusion h
      · intro hall
        exact absurd (fun x hx => hall x (List.mem_cons_of_mem _ hx)) hne
    | none =>
      have hrest := ih.mp hr
      by_cases ha : a.delivery_id = did
      · constructor
        · intro h
          simp [ha] at h
        · intro hall
          exact absurd ha (hall a (List.mem_cons_self _ _))
      · constructor
        · intro _
          simp only [List.forall_mem_cons]
          exact ⟨ha, hrest⟩
        · intro _
          simp [ha]

theorem get_delivery_status_id (did : String) (log : List DeliveryEntry)
    (e : DeliveryEntry) (h : get_delivery_status did log = some e) :
    e.delivery_id = did := by
  induction log with
  | nil => exact Option.noConfusion h
  | cons a rest ih =>
    simp only [get_delivery_status] at h
    cases hr : get_delivery_status did rest with
    | some r =>
      simp [hr] at h
      cases h
      exact ih hr
    | none =>
      by_cases ha : a.delivery_id = did
      · simp [hr, ha] at h
        cases h
        exact ha
      · simp [hr, ha] at h

theorem get_delivery_status_mem (did : String) (log : List DeliveryEntry)
    (e : DeliveryEntry) (h : get_delivery_status did log = some e) : e ∈ log := by
  induction log with
  | nil => exact Option.noConfusion h
  | cons a rest ih =>
    simp only [get_delivery_status] at h
    cases hr : get_delivery_status did rest with
    | some r =>
      simp [hr] at h
      cases h
      exact List.mem_cons_of_mem _ (ih hr)
    | none =>
      by_cases ha : a.delivery_id = did
      · simp [hr, ha] at h
        cases h
        exact List.mem_cons_self _ _
      · simp [hr, ha] at h

theorem get_delivery_status_after_done (did st : String) (f er : Option String)
    (now : Nat) (log : List DeliveryEntry) :
    get_delivery_status did (record_delivery_done did st f er now log).2 =
      (get_delivery_status did log).map (fun e => doneUpdate e st f er now) := by
  induction log with
  | nil => simp [record_delivery_done, get_delivery_status]
  | cons a rest ih =>
    by_cases hr : (record_delivery_done did st f er now rest).1 = true
    · obtain ⟨x, hx, hid⟩ := (record_delivery_done_fst did st f er now rest).mp hr
      have hsome : get_delivery_status did rest ≠ none := fun hnone =>
        (get_delivery_status_none_iff did rest).mp hnone x hx hid
      obtain ⟨e0, he0⟩ := Option.ne_none_iff_exists'.mp hsome
      have hupd : get_delivery_status did (record_delivery_done did st f er now rest).2 =
          some (doneUpdate e0 st f er now) := by rw [ih, he0]; rfl
      simp [record_delivery_done, hr, get_delivery_status, hupd, he0]
    · have hrn : get_delivery_status did rest = none := by
        cases hg : get_delivery_status did rest with
        | none => rfl
        | some e =>
          exact absurd ((record_delivery_done_fst did st f er now rest).mpr
            ⟨e, get_delivery_status_mem did rest e hg,
              get_delivery_status_id did rest e hg⟩) hr
      by_cases ha : a.delivery_id = did
      · simp [record_delivery_done, hr, ha, get_delivery_status, hrn, doneUpdate]
      · simp [record_delivery_done, hr, ha, get_delivery_status, hrn]

theorem get_delivery_status_append_last (did : String) (log : List DeliveryEntry)
    (e : DeliveryEntry) (he : e.delivery_id = did) :
    get_delivery_status did (log ++ [e]) = some e := by
  induction log with
  | nil => simp [get_delivery_status, he]
  | cons a rest ih => simp [get_delivery_status, ih]

theorem trimLog_append_one (log : List DeliveryEntry) (e : DeliveryEntry) :
    ∃ l', trimLog (log ++ [e]) = l' ++ [e] := by
  unfold trimLog
  by_cases h : (log ++ [e]).length > MAX_ENTRIES
  · rw [if_pos h]
    refine ⟨log.drop ((log ++ [e]).length - MAX_ENTRIES), ?_⟩
    rw [List.drop_append_of_le_length]
    simp only [List.length_append, List.length_singleton] at h ⊢
    have hM : MAX_ENTRIES = 5000 := rfl
    omega
  · rw [if_neg h]
    exact ⟨log, rfl⟩

end DeliveryLog

theorem record_delivery_start_eq (sty : String) (tgt : List (String × String))
    (ps did : Option String) (uuid : String) (n : Nat)
    (log : List DeliveryLog.DeliveryEntry) :
    DeliveryLog.record_delivery_start sty tgt ps did uuid n log =
      (DeliveryLog.pyOr did uuid,
        DeliveryLog.trimLog (log ++ [⟨DeliveryLog.pyOr did uuid, sty, tgt,
          DeliveryLog.pyOr ps "", DeliveryLog.STATUS_PENDING, n, n, none, none⟩])) := rfl

/-- Claim C9: `record_delivery_done` is total (the embedding is a total
function, so it never throws); on a miss it returns `false` and leaves the
ledger unchanged (a no-op, not an error), and on a hit it returns `true` and
mutates exactly the most recent entry carrying the id. -/
theorem claim_C9_completion_miss_sentinel (did st : String) (f er : Option String)
    (now : Nat) (log : List DeliveryLog.DeliveryEntry) :
    ((∀ x ∈ log, x.delivery_id ≠ did) →
      DeliveryLog.record_delivery_done did st f er now log = (false, log))
    ∧ (∀ l1 e l2, log = l1 ++ e :: l2 → e.delivery_id = did →
      (∀ x ∈ l2, x.delivery_id ≠ did) →
      DeliveryLog.record_delivery_done did st f er now log =
        (true, l1 ++ DeliveryLog.doneUpdate e st f er now :: l2)) := by
  constructor
  · intro h
    exact DeliveryLog.record_delivery_done_miss did st f er now log h
  · intro l1 e l2 hlog he h2
    rw [hlog]
    exact DeliveryLog.record_delivery_done_hit did st f er now l1 l2 e he h2

/-- Witness for C9: a miss on the empty ledger and a hit on a two-row ledger. -/
theorem claim_C9_witness :
    DeliveryLog.record_delivery_done "d" "delivered" none none 5 [] = (false, [])
    ∧ DeliveryLog.record_delivery_done "d" "delivered" none none 5
        [⟨"a", "text", [], "", "pending", 0, 0, none, none⟩,
          ⟨"d", "text", [], "", "pending", 1, 1, none, none⟩] =
      (true, [⟨"a", "text", [], "", "pending", 0, 0, none, none⟩,
        DeliveryLog.doneUpdate ⟨"d", "text", [], "", "pending", 1, 1, none, none⟩
          "delivered" none none 5]) :=
  ⟨(claim_C9_completion_miss_sentinel "d" "delivered" none none 5 []).1 (by simp),
    (claim_C9_completion_miss_sentinel "d" "delivered" none none 5 _).2
      [⟨"a", "text", [], "", "pending", 0, 0, none, none⟩]
      ⟨"d", "text", [], "", "pending", 1, 1, none, none⟩ [] rfl rfl (by simp)⟩

/-- Claim C2 counterexample: a completed delivery is reopened by a later
`record_delivery_done` call — after completing `d1` as `delivered`, a second
call with status `failed` succeeds and changes the record's status again,
contradicting the claim that the status transitions exactly once. -/
theorem claim_C2_counterexample :
    (DeliveryLog.record_delivery_done "d1" "delivered" none none 1
        (DeliveryLog.record_delivery_start "text" [] none (some "d1") "u" 0 []).2).1 = true
    ∧ (DeliveryLog.get_delivery_status "d1"
        (DeliveryLog.record_delivery_done "d1" "delivered" none none 1
          (DeliveryLog.record_delivery_start "text" [] none (some "d1") "u" 0 []).2).2).map
        (fun e => e.status) = some "delivered"
    ∧ (DeliveryLog.record_delivery_done "d1" "failed" none none 2
        (DeliveryLog.record_delivery_done "d1" "delivered" none none 1
          (DeliveryLog.record_delivery_start "text" [] none (some "d1") "u" 0 []).2).2).1 = true
    ∧ (DeliveryLog.get_delivery_status "d1"
        (DeliveryLog.record_delivery_done "d1" "failed" none none 2
          (DeliveryLog.record_delivery_done "d1" "delivered" none none 1
            (DeliveryLog.record_delivery_start "text" [] none (some "d1") "u" 0 []).2).2).2).map
        (fun e => e.status) ≠ some "delivered" := by
  refine ⟨rfl, rfl, rfl, ?_⟩
  decide

/-- Claim C2 (amended): every record starts `pending`, but completion is not
once-only: each successful `record_delivery_done` overwrites the record's
status with its argument (last-write-wins), so a later call with the same
`delivery_id` does change a completed record's status. -/
theorem claim_C2_amended_last_write_wins (sty : String) (tgt : List (String × String))
    (ps did : Option String) (uuid : String) (n : Nat)
    (log : List DeliveryLog.DeliveryEntry) (d st1 st2 : String)
    (f1 er1 f2 er2 : Option String) (n1 n2 : Nat) :
    ((DeliveryLog.get_delivery_status
        (DeliveryLog.record_delivery_start sty tgt ps did uuid n log).1
        (DeliveryLog.record_delivery_start sty tgt ps did uuid n log).2).map
      (fun e => e.status) = some DeliveryLog.STATUS_PENDING)
    ∧ ((DeliveryLog.record_delivery_done d st1 f1 er1 n1 log).1 = true →
      (DeliveryLog.get_delivery_status d
          (DeliveryLog.record_delivery_done d st2 f2 er2 n2
            (DeliveryLog.record_delivery_done d st1 f1 er1 n1 log).2).2).map
        (fun e => e.status) = some st2) := by
  constructor
  · simp only [record_delivery_start_eq]
    obtain ⟨l', hl⟩ := DeliveryLog.trimLog_append_one log
      ⟨DeliveryLog.pyOr did uuid, sty, tgt, DeliveryLog.pyOr ps "",
        DeliveryLog.STATUS_PENDING, n, n, none, none⟩
    rw [hl, DeliveryLog.get_delivery_status_append_last (DeliveryLog.pyOr did uuid) l' _ rfl]
    rfl
  · intro h1
    have hs1 : ∃ e0, DeliveryLog.get_delivery_status d log = some e0 := by
      obtain ⟨x, hx, hid⟩ := (DeliveryLog.record_delivery_done_fst d st1 f1 er1 n1 log).mp h1
      cases hg : DeliveryLog.get_delivery_status d log with
      | some e => exact ⟨e, rfl⟩
      | none => exact absurd hid ((DeliveryLog.get_delivery_status_none_iff d log).mp hg x hx)
    obtain ⟨e0, he0⟩ := hs1
    have hL1 : DeliveryLog.get_delivery_status d
        (DeliveryLog.record_delivery_done d st1 f1 er1 n1 log).2 =
        some (DeliveryLog.doneUpdate e0 st1 f1 er1 n1) := by
      rw [DeliveryLog.get_delivery_status_after_done, he0]
      rfl
    rw [DeliveryLog.get_delivery_status_after_done, hL1]
    rfl

/-- Witness for the amended C2: one row completed `delivered` then `failed`
ends up `failed`, and a fresh start is `pending`. -/
theorem claim_C2_amended_witness :
    ((DeliveryLog.get_delivery_status
        (DeliveryLog.record_delivery_start "text" [] none (some "d1") "u" 0 []).1
        (DeliveryLog.record_delivery_start "text" [] none (some "d1") "u" 0 []).2).map
      (fun e => e.status) = some DeliveryLog.STATUS_PENDING)
    ∧ ((DeliveryLog.record_delivery_done "d1" "delivered" none none 1
        (DeliveryLog.record_delivery_start "text" [] none (some "d1") "u" 0 []).2).1 = true)
    ∧ ((DeliveryLog.get_delivery_status "d1"
        (DeliveryLog.record_delivery_done "d1" "failed" none none 2
          (DeliveryLog.record_delivery_done "d1" "delivered" none none 1
            (DeliveryLog.record_delivery_start "text" [] none (some "d1") "u" 0 []).2).2).2).map
      (fun e => e.status) = some "failed") :=
  ⟨(claim_C2_amended_last_write_wins "text" [] none (some "d1") "u" 0 [] "d1"
      "delivered" "failed" none none none none 1 2).1,
    by decide,
    (claim_C2_amended_last_write_wins "text" [] none (some "d1") "u" 0
      (DeliveryLog.record_delivery_start "text" [] none (some "d1") "u" 0 []).2 "d1"
      "delivered" "failed" none none none none 1 2).2 (by decide)⟩

/-- Claim C3: lazy TTL expiry on every read path.  For an entry recorded at `T`
and read at `now > T + 3600`: `lookup_by_reply_to` deletes the expired map
entry and returns `None`; and each of `get_last_pending`, `get_all_pending`,
`get_last_pending_global`, `get_all_pending_global` only ever returns values
originating from non-expired queue entries (so the expired entry is treated as
absent even though it was never explicitly removed). -/
theorem claim_C3_lazy_ttl_expiry (s : ApprovalReply.ApprovalState)
    (room e req gw : String) (T now : Nat)
    (hmap : dictGet (room, e) s.store = some (req, gw, T))
    (hq : (req, gw, T) ∈ ApprovalReply.queueList room s)
    (hexp : now > T + ApprovalReply.TTL_SEC) :
    ApprovalReply.lookup_by_reply_to room e now s =
      (none, { s with store := dictErase (room, e) s.store })
    ∧ (∀ x, ApprovalReply.get_last_pending room now s = some x →
      ∃ t, now - t ≤ ApprovalReply.TTL_SEC ∧ (x.1, x.2, t) ∈ ApprovalReply.queueList room s)
    ∧ (∀ x ∈ ApprovalReply.get_all_pending room now s,
      ∃ t, now - t ≤ ApprovalReply.TTL_SEC ∧ (x.1, x.2, t) ∈ ApprovalReply.queueList room s)
    ∧ (∀ x, ApprovalReply.get_last_pending_global now s = some x →
      ∃ r q t, (r, q) ∈ s.pendingQueue ∧ (x.1, x.2, t) ∈ q
        ∧ now - t ≤ ApprovalReply.TTL_SEC)
    ∧ (∀ x ∈ ApprovalReply.get_all_pending_global now s,
      ∃ r q t, (r, q) ∈ s.pendingQueue ∧ (x.1, x.2, t) ∈ q
        ∧ now - t ≤ ApprovalReply.TTL_SEC) := by
  refine ⟨?_, ?_, ?_, ?_, ?_⟩
  · simp only [ApprovalReply.lookup_by_reply_to, hmap]
    rw [if_pos (by omega)]
  · intro x hx
    obtain ⟨a, ha, hfa⟩ := List.exists_of_findSome?_eq_some hx
    obtain ⟨a1, a2, a3⟩ := a
    dsimp only at hfa
    by_cases ht : now - a3 ≤ ApprovalReply.TTL_SEC
    · rw [if_pos ht] at hfa
      cases hfa
      exact ⟨a3, ht, List.mem_reverse.mp ha⟩
    · rw [if_neg ht] at hfa
      exact Option.noConfusion hfa
  · intro x hx
    obtain ⟨a, ha, hfa⟩ := List.mem_filterMap.mp hx
    obtain ⟨a1, a2, a3⟩ := a
    dsimp only at hfa
    by_cases ht : now - a3 ≤ ApprovalReply.TTL_SEC
    · rw [if_pos ht] at hfa
      cases hfa
      exact ⟨a3, ht, ha⟩
    · rw [if_neg ht] at hfa
      exact Option.noConfusion hfa
  · intro x hx
    obtain ⟨rq, hrq, hf⟩ := List.exists_of_findSome?_eq_some hx
    obtain ⟨r, q⟩ := rq
    obtain ⟨a, ha, hfa⟩ := List.exists_of_findSome?_eq_some hf
    obtain ⟨a1, a2, a3⟩ := a
    dsimp only at hfa
    by_cases ht : now - a3 ≤ ApprovalReply.TTL_SEC
    · rw [if_pos ht] at hfa
      cases hfa
      exact ⟨r, q, a3, hrq, List.mem_reverse.mp ha, ht⟩
    · rw [if_neg ht] at hfa
      exact Option.noConfusion hfa
  · intro x hx
    obtain ⟨rq, hrq, hmem⟩ := List.mem_flatMap.mp hx
    obtain ⟨r, q⟩ := rq
    obtain ⟨a, ha, hfa⟩ := List.mem_filterMap.mp hmem
    obtain ⟨a1, a2, a3⟩ := a
    dsimp only at hfa
    by_cases ht : now - a3 ≤ ApprovalReply.TTL_SEC
    · rw [if_pos ht] at hfa
      cases hfa
      exact ⟨r, q, a3, hrq, ha, ht⟩
    · rw [if_neg ht] at hfa
      exact Option.noConfusion hfa

/-- Witness for C3: one entry recorded at 0, read at 4000 (past the TTL). -/
theorem claim_C3_witness :
    4000 > 0 + ApprovalReply.TTL_SEC
    ∧ ApprovalReply.lookup_by_reply_to "!r" "$e" 4000
        (ApprovalReply.record_approval_message_debug "!r" "$e" "q" "http://g" 0
          ApprovalReply.emptyState) =
      (none, { ApprovalReply.record_approval_message_debug "!r" "$e" "q" "http://g" 0
          ApprovalReply.emptyState with
        store := dictErase ("!r", "$e")
          (ApprovalReply.record_approval_message_debug "!r" "$e" "q" "http://g" 0
            ApprovalReply.emptyState).store }) :=
  ⟨by decide,
    (claim_C3_lazy_ttl_expiry
      (ApprovalReply.record_approval_message_debug "!r" "$e" "q" "http://g" 0
        ApprovalReply.emptyState) "!r" "$e" "q" "http://g" 0 4000
      (by decide) (by decide) (by decide)).1⟩

theorem trimLog_eq_drop (l : List DeliveryLog.DeliveryEntry) :
    DeliveryLog.trimLog l = l.drop (l.length - DeliveryLog.MAX_ENTRIES) := by
  unfold DeliveryLog.trimLog
  by_cases h : l.length > DeliveryLog.MAX_ENTRIES
  · rw [if_pos h]
  · rw [if_neg h, Nat.sub_eq_zero_of_le (Nat.not_lt.mp h), List.drop_zero]

theorem startAll_eq (reqs : List DeliveryLog.StartReq) :
    ∀ log : List DeliveryLog.DeliveryEntry, log.length ≤ DeliveryLog.MAX_ENTRIES →
    DeliveryLog.startAll reqs log =
      (log ++ reqs.map DeliveryLog.mkEntry).drop
        ((log.length + reqs.length) - DeliveryLog.MAX_ENTRIES) := by
  induction reqs with
  | nil =>
    intro log hlen
    simp [DeliveryLog.startAll, Nat.sub_eq_zero_of_le hlen]
  | cons r rs ih =>
    intro log hlen
    have hM : DeliveryLog.MAX_ENTRIES = 5000 := rfl
    have hstep : DeliveryLog.startAll (r :: rs) log =
        DeliveryLog.startAll rs (DeliveryLog.trimLog (log ++ [DeliveryLog.mkEntry r])) := rfl
    have hj : (log ++ [DeliveryLog.mkEntry r]).length = log.length + 1 := by simp
    rw [hstep, trimLog_eq_drop]
    have hlen2 : ((log ++ [DeliveryLog.mkEntry r]).drop
        ((log ++ [DeliveryLog.mkEntry r]).length - DeliveryLog.MAX_ENTRIES)).length ≤
        DeliveryLog.MAX_ENTRIES := by
      rw [List.length_drop, hj]
      omega
    rw [ih _ hlen2, List.length_drop,
      ← List.drop_append_of_le_length (by rw [hj]; omega)]
    rw [List.drop_drop]
    have hA : (log ++ [DeliveryLog.mkEntry r]) ++ rs.map DeliveryLog.mkEntry =
        log ++ (r :: rs).map DeliveryLog.mkEntry := by
      simp
    rw [hA]
    refine congrArg₂ List.drop ?_ rfl
    rw [hj]
    simp only [List.length_cons]
    omega

/-- Claim C4: with the cap at 5000, starting 5001 deliveries (distinct generated
ids) leaves exactly 5000 ledger rows; the very first delivery id is no longer
retrievable via `get_delivery_status`, while each of the 5000 most recently
started ids still is. -/
theorem claim_C4_cap_fifo_eviction (reqs : List DeliveryLog.StartReq)
    (hlen : reqs.length = 5001)
    (hnd : (reqs.map DeliveryLog.StartReq.uuid).Nodup) :
    (DeliveryLog.startAll reqs []).length = 5000
    ∧ (∀ r0, reqs.head? = some r0 →
      DeliveryLog.get_delivery_status r0.uuid (DeliveryLog.startAll reqs []) = none)
    ∧ (∀ r ∈ reqs.tail, ∃ e,
      DeliveryLog.get_delivery_status r.uuid (DeliveryLog.startAll reqs []) = some e
      ∧ e.delivery_id = r.uuid ∧ e.status = DeliveryLog.STATUS_PENDING) := by
  have hM : DeliveryLog.MAX_ENTRIES = 5000 := rfl
  cases reqs with
  | nil => simp at hlen
  | cons r0 rest =>
    have hrest : rest.length = 5000 := by
      simp only [List.length_cons] at hlen
      omega
    have hfin : DeliveryLog.startAll (r0 :: rest) [] = rest.map DeliveryLog.mkEntry := by
      rw [startAll_eq (r0 :: rest) [] (by simp)]
      simp only [List.nil_append, List.length_nil, List.length_cons, hrest, hM]
      rw [show (0 + (5000 + 1)) - 5000 = 1 by omega]
      simp [List.map_cons]
    rw [hfin]
    simp only [List.map_cons, List.nodup_cons, List.mem_map] at hnd
    refine ⟨?_, ?_, ?_⟩
    · simp [hrest]
    · intro q0 hq0
      simp only [List.head?_cons, Option.some.injEq] at hq0
      subst hq0
      refine (DeliveryLog.get_delivery_status_none_iff _ _).mpr ?_
      intro x hx
      obtain ⟨r', hr', hr'x⟩ := List.mem_map.mp hx
      intro hcontra
      exact hnd.1 ⟨r', hr', by rw [← hcontra, ← hr'x]; rfl⟩
    · intro r hr
      simp only [List.tail_cons] at hr
      cases hg : DeliveryLog.get_delivery_status r.uuid (rest.map DeliveryLog.mkEntry) with
      | none =>
        exact absurd rfl ((DeliveryLog.get_delivery_status_none_iff _ _).mp hg
          (DeliveryLog.mkEntry r) (List.mem_map_of_mem _ hr))
      | some e =>
        refine ⟨e, rfl, DeliveryLog.get_delivery_status_id _ _ _ hg, ?_⟩
        obtain ⟨r', _, hr'e⟩ := List.mem_map.mp
          (DeliveryLog.get_delivery_status_mem _ _ _ hg)
        rw [← hr'e]
        rfl

/-- Witness for C4: 5001 starts whose generated ids are `""`, `"a"`, `"aa"`, …
(pairwise distinct); the final ledger holds 5000 rows. -/
theorem claim_C4_witness :
    ((List.range 5001).map (fun i => DeliveryLog.StartReq.mk "text" [] none
      (String.mk (List.replicate i 'a')) 0)).length = 5001
    ∧ (((List.range 5001).map (fun i => DeliveryLog.StartReq.mk "text" [] none
      (String.mk (List.replicate i 'a')) 0)).map DeliveryLog.StartReq.uuid).Nodup
    ∧ (DeliveryLog.startAll ((List.range 5001).map (fun i => DeliveryLog.StartReq.mk
      "text" [] none (String.mk (List.replicate i 'a')) 0)) []).length = 5000 := by
  have hinj : Function.Injective (fun i : Nat => String.mk (List.replicate i 'a')) := by
    intro a b h
    have hlen := congrArg (fun s : String => s.data.length) h
    simpa using hlen
  have hlen : ((List.range 5001).map (fun i => DeliveryLog.StartReq.mk "text" [] none
      (String.mk (List.replicate i 'a')) 0)).length = 5001 := by
    simp
  have hnd : (((List.range 5001).map (fun i => DeliveryLog.StartReq.mk "text" [] none
      (String.mk (List.replicate i 'a')) 0)).map DeliveryLog.StartReq.uuid).Nodup := by
    rw [List.map_map]
    exact (List.nodup_range 5001).map (fun a b h => hinj h)
  exact ⟨hlen, hnd, (claim_C4_cap_fifo_eviction _ hlen hnd).1⟩

/-! ## Two-index consistency of the Approval Correlation Store (claim C1) -/

namespace ApprovalReply

theorem InvAt_mono (n n' : Nat) (s : ApprovalState) (h : InvAt n s) (hle : n ≤ n') :
    InvAt n' s := by
  obtain ⟨h1, h2⟩ := h
  refine ⟨h1, ?_⟩
  intro rq hrq e he hexp
  exact h2 rq hrq e he (le_trans (Nat.sub_le_sub_right hle _) hexp)

theorem queueList_record (room event req gw : String) (now : Nat) (s : ApprovalState)
    (hcond : room ≠ "" ∧ event ≠ "" ∧ req ≠ "") (r : String) :
    queueList r (record_approval_message_debug room event req gw now s) =
      if room = r then queueList r s ++ [(req, rstripSlash gw, now)]
      else queueList r s := by
  simp only [record_approval_message_debug, if_pos hcond, queueList, dictGet_dictInsert]
  by_cases h : room = r
  · simp [h]
  · simp [h]

theorem GoodState.record_step (now : Nat) (s : ApprovalState) (room event req gw : String)
    (hfresh : dictGet (room, event) s.store = none) (h : GoodState now s) :
    GoodState now (record_approval_message_debug room event req gw now s) := by
  obtain ⟨⟨h1, h2⟩, hnd⟩ := h
  by_cases hcond : room ≠ "" ∧ event ≠ "" ∧ req ≠ ""
  case neg => simpa [record_approval_message_debug, hcond] using
    (⟨⟨h1, h2⟩, hnd⟩ : GoodState now s)
  case pos =>
  have hstore : (record_approval_message_debug room event req gw now s).store =
      s.store ++ [((room, event), (req, rstripSlash gw, now))] := by
    simp only [record_approval_message_debug, if_pos hcond]
    exact dictInsert_of_fresh _ _ _ hfresh
  have hpq : (record_approval_message_debug room event req gw now s).pendingQueue =
      dictInsert room (queueList room s ++ [(req, rstripSlash gw, now)]) s.pendingQueue := by
    simp only [record_approval_message_debug, if_pos hcond]
  have hqueue := queueList_record room event req gw now s hcond
  refine ⟨⟨?_, ?_⟩, ?_⟩
  · intro kv hkv
    rw [hstore] at hkv
    rcases List.mem_append.mp hkv with hkv | hkv
    · have hold := h1 kv hkv
      rw [hqueue kv.1.1]
      by_cases hr : room = kv.1.1
      · rw [if_pos hr]
        exact List.mem_append_left _ hold
      · rw [if_neg hr]
        exact hold
    · simp only [List.mem_singleton] at hkv
      subst hkv
      rw [hqueue ((room, event), (req, rstripSlash gw, now)).1.1]
      simp
  · intro rq hrq e he hexp
    rw [hpq] at hrq
    rcases mem_dictInsert _ _ _ _ hrq with hrq | hrq
    · subst hrq
      rcases List.mem_append.mp he with he | he
      · rcases hql : dictGet room s.pendingQueue with _ | q0
        · rw [queueList, hql] at he
          simp at he
        · have hmem := mem_of_dictGet _ _ _ hql
          obtain ⟨kv, hkv, hkv1, hkv2⟩ :=
            h2 (room, q0) hmem e (by rwa [queueList, hql] at he) hexp
          exact ⟨kv, by rw [hstore]; exact List.mem_append_left _ hkv, hkv1, hkv2⟩
      · simp only [List.mem_singleton] at he
        subst he
        refine ⟨((room, event), (req, rstripSlash gw, now)), ?_, rfl, rfl⟩
        rw [hstore]
        simp
    · obtain ⟨kv, hkv, hkv1, hkv2⟩ := h2 rq hrq e he hexp
      exact ⟨kv, by rw [hstore]; exact List.mem_append_left _ hkv, hkv1, hkv2⟩
  · rw [hstore]
    simp only [List.map_append, List.map_cons, List.map_nil]
    rw [List.nodup_append]
    refine ⟨hnd, by simp, ?_⟩
    intro a ha hb
    simp only [List.mem_singleton] at hb
    subst hb
    obtain ⟨p, hp, hpe⟩ := List.mem_map.mp ha
    exact (dictGet_eq_none_iff _ _).mp hfresh p hp hpe

theorem GoodState.lookup_step (now : Nat) (s : ApprovalState) (room event : String)
    (h : GoodState now s) :
    GoodState now (lookup_by_reply_to room event now s).2 := by
  obtain ⟨⟨h1, h2⟩, hnd⟩ := h
  cases hget : dictGet (room, event) s.store with
  | none => simpa [lookup_by_reply_to, hget] using
    (⟨⟨h1, h2⟩, hnd⟩ : GoodState now s)
  | some v =>
    obtain ⟨req, gw, created⟩ := v
    by_cases hexp : now - created > TTL_SEC
    · have hsnd : (lookup_by_reply_to room event now s).2 =
          { s with store := dictErase (room, event) s.store } := by
        simp [lookup_by_reply_to, hget, hexp]
      rw [hsnd]
      refine ⟨⟨?_, ?_⟩, ?_⟩
      · intro kv hkv
        exact h1 kv ((mem_dictErase _ _ _).mp hkv).1
      · intro rq hrq e he hexp2
        obtain ⟨⟨kvk, kvv⟩, hkv, hkv1, hkv2⟩ := h2 rq hrq e he hexp2
        refine ⟨(kvk, kvv), (mem_dictErase _ _ _).mpr ⟨hkv, ?_⟩, hkv1, hkv2⟩
        intro hkey
        simp only at hkey
        subst hkey
        have hlook := dictGet_of_mem_nodup (room, event) kvv s.store hkv hnd
        have hv : kvv = (req, gw, created) := by
          have := hget.symm.trans hlook
          cases this
          rfl
        simp only at hkv2
        rw [hkv2] at hv
        rw [hv] at hexp2
        simp only at hexp2
        omega
      · rw [dictErase_eq_filter]
        exact List.Nodup.sublist ((List.filter_sublist _).map Prod.fst) hnd
    · have hsnd : (lookup_by_reply_to room event now s).2 = s := by
        simp [lookup_by_reply_to, hget, hexp]
      rw [hsnd]
      exact ⟨⟨h1, h2⟩, hnd⟩

theorem GoodState_empty (n : Nat) : GoodState n emptyState := by
  refine ⟨⟨?_, ?_⟩, ?_⟩
  · intro kv hkv
    simp [emptyState] at hkv
  · intro rq hrq
    simp [emptyState] at hrq
  · simp [emptyState]

theorem goodSeq_preserves (ops : List AOp) (n : Nat) (s : ApprovalState)
    (hg : GoodSeq n s ops) :
    GoodState n s → GoodState (endTime n ops) (applyAOps ops s) := by
  induction hg with
  | nil n s =>
    intro hs
    exact hs
  | record n s room event req gw now ops hle hfresh h ih =>
    intro hs
    exact ih (GoodState.record_step now s room event req gw hfresh
      ⟨InvAt_mono n now s hs.1 hle, hs.2⟩)
  | lookup n s room event now ops hle h ih =>
    intro hs
    exact ih (GoodState.lookup_step now s room event
      ⟨InvAt_mono n now s hs.1 hle, hs.2⟩)

theorem ConsistentAt_of_InvAt (now : Nat) (s : ApprovalState) (h : InvAt now s) :
    ConsistentAt now s := by
  obtain ⟨h1, h2⟩ := h
  constructor
  · intro kv hkv _
    exact ⟨kv.2, h1 kv hkv, rfl, rfl⟩
  · intro rq hrq e he hexp
    obtain ⟨kv, hkv, hkv1, hkv2⟩ := h2 rq hrq e he hexp
    exact ⟨kv, hkv, hkv1, by rw [hkv2], by rw [hkv2]⟩

end ApprovalReply

/-- Claim C1 counterexample: `record` followed by `consume_approval_reply`
leaves a non-expired queue entry with no matching map entry — the two-index
consistency does not survive every sequence of the four listed operations. -/
theorem claim_C1_counterexample :
    ¬ ApprovalReply.ConsistentAt 0
      (ApprovalReply.consume_approval_reply "!r" "$e"
        (ApprovalReply.record_approval_message_debug "!r" "$e" "q" "http://g" 0
          ApprovalReply.emptyState)) := by
  unfold ApprovalReply.ConsistentAt
  decide

/-- Claim C1 (amended): starting from the empty store, the two-index
consistency holds after any sequence of `record_approval_message_debug`
(with fresh `(room_id, event_id)` keys, as Matrix event ids are) and
`lookup_by_reply_to` operations run with a monotone clock; it is
`consume_approval_reply` (map only) and `remove_from_pending` (queue only)
that each update a single index. -/
theorem claim_C1_amended_two_index_consistency (ops : List ApprovalReply.AOp) (n : Nat)
    (hg : ApprovalReply.GoodSeq n ApprovalReply.emptyState ops) :
    ApprovalReply.ConsistentAt (ApprovalReply.endTime n ops)
      (ApprovalReply.applyAOps ops ApprovalReply.emptyState) :=
  ApprovalReply.ConsistentAt_of_InvAt _ _
    (ApprovalReply.goodSeq_preserves ops n _ hg (ApprovalReply.GoodState_empty n)).1

/-- Witness for the amended C1: two records and one lookup with rising clock. -/
theorem claim_C1_witness :
    ApprovalReply.GoodSeq 0 ApprovalReply.emptyState
      [ApprovalReply.AOp.record "!r" "$e" "q" "http://g" 0,
        ApprovalReply.AOp.lookup "!r" "$e" 5,
        ApprovalReply.AOp.record "!r" "$e2" "q2" "http://g" 9]
    ∧ ApprovalReply.ConsistentAt
        (ApprovalReply.endTime 0
          [ApprovalReply.AOp.record "!r" "$e" "q" "http://g" 0,
            ApprovalReply.AOp.lookup "!r" "$e" 5,
            ApprovalReply.AOp.record "!r" "$e2" "q2" "http://g" 9])
        (ApprovalReply.applyAOps
          [ApprovalReply.AOp.record "!r" "$e" "q" "http://g" 0,
            ApprovalReply.AOp.lookup "!r" "$e" 5,
            ApprovalReply.AOp.record "!r" "$e2" "q2" "http://g" 9]
          ApprovalReply.emptyState) := by
  have hg : ApprovalReply.GoodSeq 0 ApprovalReply.emptyState
      [ApprovalReply.AOp.record "!r" "$e" "q" "http://g" 0,
        ApprovalReply.AOp.lookup "!r" "$e" 5,
        ApprovalReply.AOp.record "!r" "$e2" "q2" "http://g" 9] := by
    refine ApprovalReply.GoodSeq.record _ _ _ _ _ _ _ _ (by omega) (by decide) ?_
    refine ApprovalReply.GoodSeq.lookup _ _ _ _ _ _ (by omega) ?_
    refine ApprovalReply.GoodSeq.record _ _ _ _ _ _ _ _ (by omega) (by decide) ?_
    exact ApprovalReply.GoodSeq.nil _ _
  exact ⟨hg, claim_C1_amended_two_index_consistency _ 0 hg⟩
